import Mathlib

/-!
Shallow embedding of the Polaris precompile container factory and
method-dispatch table builder (Go package `precompile`, file
`container/factory.go` material), together with the distribution
contract's custom value decoders and the staking contract's
variadic-argument methods.

Go reflection values are modelled by a small inductive of Go types
(`GoType`) carrying exactly the observations the source makes on them:
`Kind()`, `Elem()` (which panics on kinds without an element type),
`Name()` and `String()`.  Go maps are modelled as association lists with
insert-overwrites-in-place semantics; map iteration order in the source
is nondeterministic, the list order here is one deterministic instance.
Errors are a structural inductive: `errorslib.Wrap(err, msg)` becomes
`Err.wrap msg err`.  A Go runtime panic is a distinct outcome
constructor, never an error value.
-/

namespace Polaris

/-- Kinds of Go reflect types, restricted to what the source observes. -/
inductive GoKind where
  | sliceKind
  | interfaceKind
  | ptrKind
  | otherKind
  deriving DecidableEq, Repr

/-- A Go reflect type as observed by the source: slices, pointer types,
interface types (carrying their `Name()`, empty for `any`), and all
remaining kinds collapsed into `basic` (carrying their `Name()`), which
have no element type. -/
inductive GoType where
  | sliceOf (elem : GoType)
  | iface (typeName : String)
  | ptrTo (elem : GoType)
  | basic (typeName : String)
  deriving DecidableEq, Repr

/-- `reflect.Type.Kind()`. -/
def GoType.kind : GoType → GoKind
  | .sliceOf _ => .sliceKind
  | .iface _ => .interfaceKind
  | .ptrTo _ => .ptrKind
  | .basic _ => .otherKind

/-- `reflect.Type.Elem()`: defined for slices and pointers, panics
(`none`) on every other modelled kind. -/
def GoType.elem : GoType → Option GoType
  | .sliceOf e => some e
  | .ptrTo e => some e
  | .iface _ => none
  | .basic _ => none

/-- `reflect.Type.Name()`: composite (slice, pointer) types are unnamed. -/
def GoType.name : GoType → String
  | .sliceOf _ => ""
  | .ptrTo _ => ""
  | .iface n => n
  | .basic n => n

/-- `reflect.Type.String()`. -/
def GoType.typeString : GoType → String
  | .sliceOf e => "[]" ++ e.typeString
  | .ptrTo e => "*" ++ e.typeString
  | .iface n => if n = "" then "interface \x7b\x7d" else n
  | .basic n => n

/-- The Go type `[]any` (`[]interface \x7b\x7d`). -/
def sliceOfAny : GoType := .sliceOf (.iface "")

/-- The Go `error` interface type, whose `Name()` is "error". -/
def errorType : GoType := .iface "error"

/-- One reflected exported method of the implementation
(`reflect.Method`): its `Name`, the ordered list of its return types
(`Type.Out(0..NumOut-1)`) and the identity of its `Func` value.  The
implementation's method set is a list of these in Go's reflection
iteration order (sorted by name). -/
structure ImplMethod where
  name : String
  outs : List GoType
  fn : Nat
  deriving DecidableEq, Repr

/-- An ABI method descriptor (`abi.Method`) as used by the source: its
`Name`, its precomputed 4-byte selector `ID` (modelled as the byte list)
and its canonical signature string `Sig`.  The selector is supplied,
never computed, by this subsystem. -/
structure AbiMethod where
  name : String
  id : List Nat
  sig : String
  deriving DecidableEq, Repr

/-- Modelled from the spec: the Method Record (type `Method`, constructor
`NewMethod`, source not under src/) — an immutable binding of the ABI
method descriptor, the canonical signature string handed to the
constructor, and the bound native callable. -/
structure Method where
  abiMethod : AbiMethod
  abiSig : String
  execute : Nat
  deriving DecidableEq, Repr

/-- Modelled from the spec: `NewMethod` stores its three arguments
verbatim in the record. -/
def NewMethod (abiMethod : AbiMethod) (abiSig : String) (fn : Nat) : Method :=
  ⟨abiMethod, abiSig, fn⟩

/-- Structural model of the package's error values.
`errorslib.Wrap(err, ctx)` is `Err.wrap ctx err`; the two sentinel
errors of the factory file and the staking package's
`ErrInvalidHexAddress` are constants; the `errors.New`/`fmt.Errorf`
results of `validateReturnTypes` carry their message. -/
inductive Err where
  | errWrongContainerFactory
  | errNoPrecompileMethodForABIMethod
  | errInvalidHexAddress
  | validation (msg : String)
  | wrap (ctx : String) (inner : Err)
  deriving DecidableEq, Repr

/-- Outcome of `validateReturnTypes`: `ok` (nil error), a returned
error, or a Go runtime panic (from `Elem()` on an element-less kind). -/
inductive ValidationOutcome where
  | ok
  | err (msg : String)
  | panicked
  deriving DecidableEq, Repr

/-- Result of a fallible construction: success, a returned error, or a
propagated Go runtime panic. -/
inductive BuildResult (α : Type) where
  | ok (a : α)
  | fail (e : Err)
  | panicked
  deriving DecidableEq, Repr

/-- `formatName` converts the first character of `name` to lowercase
(`unicode.ToLower` on the first rune; `Char.toLower` agrees with it on
the ASCII names the contracts use) and returns the empty name
unchanged. -/
def formatName (name : String) : String :=
  match name.data with
  | [] => name
  | c :: cs => String.mk (Char.toLower c :: cs)

/-- Check on the second return type of `validateReturnTypes`: its
`Name()` must be "error". -/
def checkSecondReturn (secondReturnType : GoType) : ValidationOutcome :=
  if secondReturnType.name ≠ "error" then
    .err ("second parameter should be error, but found "
      ++ secondReturnType.typeString ++ " for precompile method")
  else
    .ok

/-- `validateReturnTypes` from the source, including its short-circuit
`&&`: exactly two return values are required; the first-return check
fires only when the kind is not Slice AND `Elem().Kind()` is not
Interface (`Elem()` panicking on kinds without an element type); the
second return's `Name()` must be "error". -/
def validateReturnTypes (implMethod : ImplMethod) : ValidationOutcome :=
  match implMethod.outs with
  | [firstReturnType, secondReturnType] =>
    if firstReturnType.kind ≠ GoKind.sliceKind then
      match firstReturnType.elem with
      | none => .panicked
      | some e =>
        if e.kind ≠ GoKind.interfaceKind then
          .err ("first parameter should be []any, but found "
            ++ firstReturnType.typeString ++ " for precompile method")
        else
          checkSecondReturn secondReturnType
    else
      checkSecondReturn secondReturnType
  | _ =>
    .err "precompile methods must return ([]any, error), but found wrong number of return types for precompile method"

/-- Lookup in the ABI descriptor map `pcABI` (Go `map[string]abi.Method`)
by method-name key. -/
def lookupAbi (pcABI : List (String × AbiMethod)) (k : String) : Option AbiMethod :=
  match pcABI with
  | [] => none
  | (k', m) :: rest => if k' = k then some m else lookupAbi rest k

/-- The dispatch table `map[string]*Method`, keyed by the raw selector
bytes (`utils.UnsafeBytesToStr(abiMethod.ID)` makes the bytes a string
key; the bytes themselves are the key here). -/
abbrev IdsToMethods := List (List Nat × Method)

/-- Lookup in the dispatch table by selector key. -/
def lookupTable (t : IdsToMethods) (k : List Nat) : Option Method :=
  match t with
  | [] => none
  | (k', m) :: rest => if k' = k then some m else lookupTable rest k

/-- Go map insertion: overwrites the binding in place if the key is
present, otherwise appends. -/
def mapInsert (k : List Nat) (v : Method) : IdsToMethods → IdsToMethods
  | [] => [(k, v)]
  | (k', v') :: rest =>
    if k' = k then (k, v) :: rest else (k', v') :: mapInsert k v rest

/-- The matching loop of `buildIdsToMethods`: for each implementation
method in iteration order, normalize its name, look it up in `pcABI`;
if absent skip silently; if present validate the return shape (an error
is wrapped with the normalized name, a panic propagates) and insert
`NewMethod(&abiMethod, abiMethod.Sig, implMethod.Func)` keyed by
`abiMethod.ID`. -/
def buildLoop (pcABI : List (String × AbiMethod)) :
    List ImplMethod → IdsToMethods → BuildResult IdsToMethods
  | [], t => .ok t
  | implMethod :: rest, t =>
    let implMethodName := formatName implMethod.name
    match lookupAbi pcABI implMethodName with
    | none => buildLoop pcABI rest t
    | some abiMethod =>
      match validateReturnTypes implMethod with
      | .panicked => .panicked
      | .err msg => .fail (.wrap implMethodName (.validation msg))
      | .ok =>
        buildLoop pcABI rest
          (mapInsert abiMethod.id (NewMethod abiMethod abiMethod.sig implMethod.fn) t)

/-- The completeness pass of `buildIdsToMethods`: the first ABI method
(in map iteration order) whose selector is absent from the table. -/
def findMissing (t : IdsToMethods) : List (String × AbiMethod) → Option AbiMethod
  | [] => none
  | (_, abiMethod) :: rest =>
    match lookupTable t abiMethod.id with
    | none => some abiMethod
    | some _ => findMissing t rest

/-- `buildIdsToMethods`: run the matching loop from the empty table,
then verify that every ABI method has a table entry, failing with
`ErrNoPrecompileMethodForABIMethod` wrapped with the missing method's
`Name`. -/
def buildIdsToMethods (pcABI : List (String × AbiMethod))
    (implMethods : List ImplMethod) : BuildResult IdsToMethods :=
  match buildLoop pcABI implMethods [] with
  | .ok t =>
    match findMissing t pcABI with
    | some abiMethod => .fail (.wrap abiMethod.name .errNoPrecompileMethodForABIMethod)
    | none => .ok t
  | .fail e => .fail e
  | .panicked => .panicked

/-- The execution-plugin handle, opaque to this subsystem. -/
abbrev Plugin := Nat

/-- A registrable implementation, modelling the Go interface assertions:
`utils.GetAs[StatelessImpl]` succeeds iff `isStatelessImpl`,
`utils.GetAs[StatefulImpl]` succeeds iff `isStatefulImpl`;
`ABIMethods()` returns `abiMethods`; the reflected exported method set
is `implMethods`; `CustomValueDecoders()` returns
`customValueDecoders` (decoder functions as opaque names); `SetPlugin`
mutates `plugin`. -/
structure Registrable where
  isStatelessImpl : Bool
  isStatefulImpl : Bool
  abiMethods : List (String × AbiMethod)
  implMethods : List ImplMethod
  customValueDecoders : List (String × String)
  plugin : Option Plugin
  deriving DecidableEq, Repr

/-- `sci.SetPlugin(p)`: the mutation of the (shared) implementation
object, written functionally. -/
def Registrable.withPlugin (rp : Registrable) (p : Plugin) : Registrable :=
  ⟨rp.isStatelessImpl, rp.isStatefulImpl, rp.abiMethods, rp.implMethods,
    rp.customValueDecoders, some p⟩

/-- `statelessContainerName` constant of the source. -/
def statelessContainerName : String := "StatelessContainerImpl"

/-- `statefulContainerName` constant of the source. -/
def statefulContainerName : String := "StatefulContainerImpl"

/-- The container returned to the execution engine: the stateless one is
the implementation itself (no table), the stateful one wraps the
implementation and its dispatch table. -/
inductive Container where
  | stateless (impl : Registrable)
  | stateful (impl : Registrable) (idsToMethods : IdsToMethods)
  deriving DecidableEq, Repr

/-- The implementation an existing container is bound to. -/
def Container.registrable : Container → Registrable
  | .stateless rp => rp
  | .stateful rp _ => rp

/-- `StatelessFactory.Build`: succeeds with the implementation itself as
the container iff the stateless interface assertion succeeds; otherwise
fails with `ErrWrongContainerFactory` wrapped with
`statelessContainerName`. -/
def StatelessFactory.Build (rp : Registrable) (_ : Plugin) : BuildResult Container :=
  if rp.isStatelessImpl then
    .ok (.stateless rp)
  else
    .fail (.wrap statelessContainerName .errWrongContainerFactory)

/-- Modelled from the spec: `NewStateful` (stateful container
constructor, source not under src/) wraps the built table in a Stateful
Container bound to the implementation's identity. -/
def NewStateful (rp : Registrable) (idsToMethods : IdsToMethods) : BuildResult Container :=
  .ok (.stateful rp idsToMethods)

/-- Observable construction-time events of `StatefulFactory.Build`, for
the ordering claims: the `SetPlugin` call and the invocation of the
table builder. -/
inductive Event where
  | setPlugin (p : Plugin)
  | buildTable
  deriving DecidableEq, Repr

/-- Whether an event is a `SetPlugin` call. -/
def Event.isSetPlugin : Event → Bool
  | .setPlugin _ => true
  | .buildTable => false

/-- `StatefulFactory.Build`, returning the event trace alongside the
result: assert the stateful interface (else fail with
`ErrWrongContainerFactory` wrapped with `statefulContainerName`), call
`SetPlugin(p)` on the implementation, build the table from
`sci.ABIMethods()` and the reflected method set (errors and panics
propagate unchanged), then `NewStateful`.  `rp` and `sci` alias the
same object in Go, so the container holds the plugin-attached
implementation. -/
def StatefulFactory.Build (rp : Registrable) (p : Plugin) :
    List Event × BuildResult Container :=
  if rp.isStatefulImpl then
    let sci := rp.withPlugin p
    match buildIdsToMethods sci.abiMethods sci.implMethods with
    | .ok idsToMethods => ([.setPlugin p, .buildTable], NewStateful sci idsToMethods)
    | .fail e => ([.setPlugin p, .buildTable], .fail e)
    | .panicked => ([.setPlugin p, .buildTable], .panicked)
  else
    ([], .fail (.wrap statefulContainerName .errWrongContainerFactory))

/-- The distribution precompile contract's state (the two servers,
opaque here). -/
structure DistributionContract where
  msgServer : Nat
  querier : Nat
  deriving DecidableEq, Repr

/-- `distributiontypes.AttributeKeyWithdrawAddress` from the cosmos-sdk. -/
def AttributeKeyWithdrawAddress : String := "withdraw_address"

/-- The `log.ConvertAccAddressFromBech32` decoder function, as an opaque
name. -/
def ConvertAccAddressFromBech32 : String := "log.ConvertAccAddressFromBech32"

/-- `Contract.CustomValueDecoders` of the distribution contract: the
one-entry mapping from the withdraw-address attribute key to the bech32
account-address decoder; the receiver is unused. -/
def Contract.CustomValueDecoders (_ : DistributionContract) : List (String × String) :=
  [(AttributeKeyWithdrawAddress, ConvertAccAddressFromBech32)]

/-- An EVM address (`common.Address`), 20 bytes. -/
abbrev Address := List Nat

/-- A dynamically-typed Go value (`any`) as passed in the variadic
argument list of the staking methods: either a `common.Address` or some
other value. -/
inductive GoValue where
  | addr (a : Address)
  | other (tag : String)
  deriving DecidableEq, Repr

/-- Outcome of a variadic staking method: delegation to a query helper
with the address it was given, a returned `(nil, error)` pair, or a Go
runtime panic (index out of range). -/
inductive CallOutcome where
  | delegate (helper : String) (arg : GoValue)
  | err (e : Err)
  | panicked
  deriving DecidableEq, Repr

/-- `Contract.GetValidatorAddrInput` of the staking contract: reads
`args[0]` with no bounds check (empty `args` panics), returns
`(nil, ErrInvalidHexAddress)` if it is not a `common.Address`, and
otherwise delegates to `validatorHelper` on that address. -/
def GetValidatorAddrInput (args : List GoValue) : CallOutcome :=
  match args with
  | [] => .panicked
  | arg0 :: _ =>
    match arg0 with
    | .addr val => .delegate "validatorHelper" (.addr val)
    | .other _ => .err Err.errInvalidHexAddress

/-- `Contract.GetDelegatorValidatorsAddrInput` of the staking contract:
same unguarded `args[0]` access and address check, delegating to
`delegatorValidatorsHelper`. -/
def GetDelegatorValidatorsAddrInput (args : List GoValue) : CallOutcome :=
  match args with
  | [] => .panicked
  | arg0 :: _ =>
    match arg0 with
    | .addr del => .delegate "delegatorValidatorsHelper" (.addr del)
    | .other _ => .err Err.errInvalidHexAddress

/-! ## Helper lemmas -/

/-- A character that is already an ASCII lowercase letter is unchanged by
`Char.toLower`. -/
theorem char_toLower_eq_of_isLower (c : Char) (h : c.isLower = true) : c.toLower = c := by
  simp only [Char.isLower, Bool.and_eq_true, decide_eq_true_eq] at h
  obtain ⟨h1, h2⟩ := h
  have h1' : (97 : Nat) ≤ c.val.toNat := h1
  have hn : ¬(Char.toNat c ≥ 65 ∧ Char.toNat c ≤ 90) := by
    simp only [Char.toNat]
    omega
  simp [Char.toLower, hn]

/-! ## C4: name normalization -/

/-- C4: `formatName` lower-cases only the first character of a name and
leaves every later character untouched; "GetValidator" maps to
"getValidator" and "GetActiveValidators" to "getActiveValidators"; a
name whose first character is already lower-case is returned unchanged;
the empty name is returned as the empty name. -/
theorem formatName_normalization :
    formatName "GetValidator" = "getValidator" ∧
    formatName "GetActiveValidators" = "getActiveValidators" ∧
    formatName "" = "" ∧
    (∀ c cs, formatName (String.mk (c :: cs)) = String.mk (Char.toLower c :: cs)) ∧
    (∀ c cs, c.isLower = true → formatName (String.mk (c :: cs)) = String.mk (c :: cs)) := by
  refine ⟨by decide, by decide, rfl, fun c cs => rfl, fun c cs h => ?_⟩
  show String.mk (Char.toLower c :: cs) = String.mk (c :: cs)
  rw [char_toLower_eq_of_isLower c h]

/-- Witness for C4: a lower-case-initial name is unchanged. -/
theorem formatName_normalization_witness :
    formatName (String.mk ('g' :: "etX".data)) = String.mk ('g' :: "etX".data) :=
  formatName_normalization.2.2.2.2 'g' "etX".data (by decide)

/-! ## C10: variadic argument access in the staking contract -/

/-- C10: with at least one variadic argument, `GetValidatorAddrInput` and
`GetDelegatorValidatorsAddrInput` return `(nil, ErrInvalidHexAddress)`
when the first argument is not an EVM address and otherwise delegate to
their query helper on that address; the `args[0]` access is unguarded,
so the empty argument list panics. -/
theorem variadic_addr_guard :
    (∀ a args, GetValidatorAddrInput (GoValue.addr a :: args) =
      CallOutcome.delegate "validatorHelper" (GoValue.addr a)) ∧
    (∀ s args, GetValidatorAddrInput (GoValue.other s :: args) =
      CallOutcome.err Err.errInvalidHexAddress) ∧
    GetValidatorAddrInput [] = CallOutcome.panicked ∧
    (∀ a args, GetDelegatorValidatorsAddrInput (GoValue.addr a :: args) =
      CallOutcome.delegate "delegatorValidatorsHelper" (GoValue.addr a)) ∧
    (∀ s args, GetDelegatorValidatorsAddrInput (GoValue.other s :: args) =
      CallOutcome.err Err.errInvalidHexAddress) ∧
    GetDelegatorValidatorsAddrInput [] = CallOutcome.panicked :=
  ⟨fun _ _ => rfl, fun _ _ => rfl, rfl, fun _ _ => rfl, fun _ _ => rfl, rfl⟩

/-! ## C2: the first-return-type check of validateReturnTypes -/

/-- An ABI descriptor for a method foo() used in concrete evaluations. -/
def fooAbi : AbiMethod := ⟨"foo", [1, 2, 3, 4], "foo()"⟩

/-- An implementation method Foo returning `([]int, error)`: not
`([]any, error)`, yet accepted by the source's `&&` check. -/
def fooSliceInt : ImplMethod := ⟨"Foo", [GoType.sliceOf (GoType.basic "int"), errorType], 7⟩

/-- An implementation method Foo returning `(int, error)`: the source's
check calls `Elem()` on `int`, which panics. -/
def fooIntFirst : ImplMethod := ⟨"Foo", [GoType.basic "int", errorType], 8⟩

/-- C2 failing input: the short-circuit `&&` in `validateReturnTypes`
(where its own comment requires checking that the first return type is
`[]any`) accepts any slice-typed first return, so a method returning
`([]int, error)` passes validation, `buildIdsToMethods` builds a table
for it and `StatefulFactory.Build` produces a container; and a method
returning `(int, error)` makes the check panic instead of returning a
descriptive error. -/
theorem validateReturnTypes_first_return_bug :
    validateReturnTypes fooSliceInt = ValidationOutcome.ok ∧
    buildIdsToMethods [("foo", fooAbi)] [fooSliceInt] =
      BuildResult.ok [([1, 2, 3, 4], NewMethod fooAbi "foo()" 7)] ∧
    (StatefulFactory.Build ⟨false, true, [("foo", fooAbi)], [fooSliceInt], [], none⟩ 0).2 =
      BuildResult.ok (Container.stateful
        ⟨false, true, [("foo", fooAbi)], [fooSliceInt], [], some 0⟩
        [([1, 2, 3, 4], NewMethod fooAbi "foo()" 7)]) ∧
    validateReturnTypes fooIntFirst = ValidationOutcome.panicked := by
  refine ⟨by decide, by decide, ?_, by decide⟩
  decide

/-! ## C5: factory capability dispatch -/

/-- C5: `StatelessFactory.Build` succeeds iff the implementation has the
stateless capability, returning the implementation itself (no table);
otherwise it fails with `ErrWrongContainerFactory` wrapped with
`StatelessContainerImpl`; `StatefulFactory.Build` fails with the same
error wrapped with `StatefulContainerImpl` when the stateful capability
is absent; no failure produces a container. -/
theorem factory_capability_dispatch :
    (∀ rp p, rp.isStatelessImpl = true →
      StatelessFactory.Build rp p = BuildResult.ok (Container.stateless rp)) ∧
    (∀ rp p, rp.isStatelessImpl = false →
      StatelessFactory.Build rp p =
        BuildResult.fail (Err.wrap statelessContainerName Err.errWrongContainerFactory)) ∧
    (∀ rp p, rp.isStatefulImpl = false →
      (StatefulFactory.Build rp p).2 =
        BuildResult.fail (Err.wrap statefulContainerName Err.errWrongContainerFactory)) := by
  refine ⟨fun rp p h => ?_, fun rp p h => ?_, fun rp p h => ?_⟩ <;>
    simp [StatelessFactory.Build, StatefulFactory.Build, h]

/-- A registrable implementation with only the stateless capability. -/
def rpStatelessDemo : Registrable := ⟨true, false, [], [], [], none⟩

/-- A registrable implementation with neither capability. -/
def rpNeitherDemo : Registrable := ⟨false, false, [], [], [], none⟩

/-- Witness for C5 at concrete implementations. -/
theorem factory_capability_dispatch_witness :
    StatelessFactory.Build rpStatelessDemo 0 = BuildResult.ok (Container.stateless rpStatelessDemo) ∧
    StatelessFactory.Build rpNeitherDemo 0 =
      BuildResult.fail (Err.wrap statelessContainerName Err.errWrongContainerFactory) ∧
    (StatefulFactory.Build rpNeitherDemo 0).2 =
      BuildResult.fail (Err.wrap statefulContainerName Err.errWrongContainerFactory) :=
  ⟨factory_capability_dispatch.1 rpStatelessDemo 0 rfl,
   factory_capability_dispatch.2.1 rpNeitherDemo 0 rfl,
   factory_capability_dispatch.2.2 rpNeitherDemo 0 rfl⟩

/-! ## C7: SetPlugin ordering -/

/-- C7: for every implementation passing the stateful-capability check,
the build trace contains exactly one `SetPlugin` invocation, and it
occurs strictly before the table builder runs. -/
theorem setPlugin_before_buildTable :
    ∀ rp p, rp.isStatefulImpl = true →
      (StatefulFactory.Build rp p).1.filter Event.isSetPlugin = [Event.setPlugin p] ∧
      ∃ pre post, (StatefulFactory.Build rp p).1 = pre ++ Event.buildTable :: post ∧
        Event.setPlugin p ∈ pre := by
  intro rp p h
  have htr : (StatefulFactory.Build rp p).1 = [Event.setPlugin p, Event.buildTable] := by
    simp only [StatefulFactory.Build, h, if_true]
    cases buildIdsToMethods (rp.withPlugin p).abiMethods (rp.withPlugin p).implMethods <;> rfl
  rw [htr]
  exact ⟨rfl, [Event.setPlugin p], [], rfl, List.mem_singleton.mpr rfl⟩

/-- A registrable implementation with the stateful capability and an
empty ABI. -/
def rpStatefulEmpty : Registrable := ⟨false, true, [], [], [], none⟩

/-- Witness for C7 at a concrete stateful implementation. -/
theorem setPlugin_before_buildTable_witness :
    (StatefulFactory.Build rpStatefulEmpty 5).1.filter Event.isSetPlugin = [Event.setPlugin 5] ∧
    ∃ pre post, (StatefulFactory.Build rpStatefulEmpty 5).1 = pre ++ Event.buildTable :: post ∧
      Event.setPlugin 5 ∈ pre :=
  setPlugin_before_buildTable rpStatefulEmpty 5 rfl

/-! ## C8: duplicate-name overwrite -/

/-- C8: two implementation methods normalizing to the same ABI name,
both passing return-shape validation, still build; the later-iterated
method's record overwrites the earlier one's entry, leaving exactly one
Method Record for the selector. -/
theorem duplicate_name_overwrite :
    ∀ k am f g, formatName f.name = k → formatName g.name = k →
      validateReturnTypes f = ValidationOutcome.ok →
      validateReturnTypes g = ValidationOutcome.ok →
      buildIdsToMethods [(k, am)] [f, g] =
        BuildResult.ok [(am.id, NewMethod am am.sig g.fn)] := by
  intro k am f g hf hg hvf hvg
  simp [buildIdsToMethods, buildLoop, hf, hg, hvf, hvg, lookupAbi, mapInsert,
    findMissing, lookupTable]

/-- An ABI descriptor dup() for the duplicate-name scenario. -/
def dupAbi : AbiMethod := ⟨"dup", [9, 9, 9, 9], "dup()"⟩

/-- First implementation method named Dup. -/
def dupImplF : ImplMethod := ⟨"Dup", [sliceOfAny, errorType], 1⟩

/-- Second implementation method named Dup. -/
def dupImplG : ImplMethod := ⟨"Dup", [sliceOfAny, errorType], 2⟩

/-- Witness for C8: the later method's callable wins. -/
theorem duplicate_name_overwrite_witness :
    buildIdsToMethods [("dup", dupAbi)] [dupImplF, dupImplG] =
      BuildResult.ok [(dupAbi.id, NewMethod dupAbi dupAbi.sig 2)] :=
  duplicate_name_overwrite "dup" dupAbi dupImplF dupImplG (by decide) (by decide)
    (by decide) (by decide)

/-! ## C9: custom value decoder pass-through -/

/-- C9: the distribution contract's custom value decoder mapping is the
one-entry mapping from the withdraw-address attribute key to the bech32
address decoder on every call, and the stateful factory carries the
implementation's mapping into the container unchanged. -/
theorem customValueDecoders_passthrough :
    (∀ c : DistributionContract, Contract.CustomValueDecoders c =
      [(AttributeKeyWithdrawAddress, ConvertAccAddressFromBech32)]) ∧
    (∀ c₁ c₂ : DistributionContract,
      Contract.CustomValueDecoders c₁ = Contract.CustomValueDecoders c₂) ∧
    (∀ rp p cont, (StatefulFactory.Build rp p).2 = BuildResult.ok cont →
      cont.registrable.customValueDecoders = rp.customValueDecoders) := by
  refine ⟨fun c => rfl, fun c₁ c₂ => rfl, fun rp p cont h => ?_⟩
  by_cases hs : rp.isStatefulImpl = true
  · simp only [StatefulFactory.Build, hs, if_true] at h
    cases hb : buildIdsToMethods (rp.withPlugin p).abiMethods (rp.withPlugin p).implMethods with
    | ok t =>
      rw [hb] at h
      simp only [NewStateful, BuildResult.ok.injEq] at h
      subst h
      rfl
    | fail e => rw [hb] at h; exact BuildResult.noConfusion h
    | panicked => rw [hb] at h; exact BuildResult.noConfusion h
  · simp only [StatefulFactory.Build, hs, if_false] at h
    exact BuildResult.noConfusion h

/-- A stateful registrable implementation declaring the distribution
decoder mapping. -/
def rpDistDemo : Registrable :=
  ⟨false, true, [], [], [(AttributeKeyWithdrawAddress, ConvertAccAddressFromBech32)], none⟩

/-- Witness for C9 at a concrete successful build. -/
theorem customValueDecoders_passthrough_witness :
    (Container.stateful (rpDistDemo.withPlugin 3) []).registrable.customValueDecoders =
      rpDistDemo.customValueDecoders :=
  customValueDecoders_passthrough.2.2 rpDistDemo 3
    (Container.stateful (rpDistDemo.withPlugin 3) []) (by decide)

/-! ## Dispatch-table invariants -/

/-- Every entry of `mapInsert k v t` is the new binding or one of `t`. -/
theorem mem_mapInsert {e : List Nat × Method} {k : List Nat} {v : Method} :
    ∀ {t : IdsToMethods}, e ∈ mapInsert k v t → e = (k, v) ∨ e ∈ t := by
  intro t
  induction t with
  | nil => simp [mapInsert]
  | cons hd tl ih =>
    simp only [mapInsert]
    split
    · intro h
      rcases List.mem_cons.mp h with h | h
      · exact .inl h
      · exact .inr (List.mem_cons_of_mem _ h)
    · intro h
      rcases List.mem_cons.mp h with h | h
      · exact .inr (h ▸ List.mem_cons_self _ _)
      · rcases ih h with h' | h'
        · exact .inl h'
        · exact .inr (List.mem_cons_of_mem _ h')

/-- Any property of table entries that holds of every record the loop
can insert is an invariant of `buildLoop`. -/
theorem buildLoop_invariant (P : List Nat × Method → Prop)
    (pcABI : List (String × AbiMethod))
    (hP : ∀ nm am fn, lookupAbi pcABI nm = some am → P (am.id, NewMethod am am.sig fn)) :
    ∀ ms t t', buildLoop pcABI ms t = BuildResult.ok t' →
      (∀ e ∈ t, P e) → ∀ e ∈ t', P e := by
  intro ms
  induction ms with
  | nil =>
    intro t t' h ht e he
    simp only [buildLoop, BuildResult.ok.injEq] at h
    subst h
    exact ht e he
  | cons f rest ih =>
    intro t t' h ht e he
    simp only [buildLoop] at h
    cases hl : lookupAbi pcABI (formatName f.name) with
    | none =>
      rw [hl] at h
      exact ih t t' h ht e he
    | some am =>
      rw [hl] at h
      cases hv : validateReturnTypes f with
      | panicked => rw [hv] at h; exact BuildResult.noConfusion h
      | err msg => rw [hv] at h; exact BuildResult.noConfusion h
      | ok =>
        rw [hv] at h
        refine ih _ t' h ?_ e he
        intro e' he'
        rcases mem_mapInsert he' with rfl | he''
        · exact hP _ am f.fn hl
        · exact ht e' he''

/-- Splitting a successful `buildIdsToMethods` run into its loop and its
completeness pass. -/
theorem buildIdsToMethods_ok_elim {pcABI : List (String × AbiMethod)}
    {ms : List ImplMethod} {t : IdsToMethods}
    (h : buildIdsToMethods pcABI ms = BuildResult.ok t) :
    buildLoop pcABI ms [] = BuildResult.ok t ∧ findMissing t pcABI = none := by
  simp only [buildIdsToMethods] at h
  cases hb : buildLoop pcABI ms [] with
  | ok t₀ =>
    rw [hb] at h
    dsimp only at h
    cases hm : findMissing t₀ pcABI with
    | some am => rw [hm] at h; exact BuildResult.noConfusion h
    | none =>
      rw [hm] at h
      injection h with h'
      subst h'
      exact ⟨rfl, hm⟩
  | fail e => rw [hb] at h; exact BuildResult.noConfusion h
  | panicked => rw [hb] at h; exact BuildResult.noConfusion h

/-! ## C3: selector fidelity -/

/-- C3: in a successfully built table, every entry's key equals its
record's ABI descriptor's own precomputed selector, byte for byte, and
the record stores the descriptor's canonical signature string. -/
theorem table_selector_fidelity :
    ∀ pcABI ms t, buildIdsToMethods pcABI ms = BuildResult.ok t →
      ∀ e ∈ t, e.1 = e.2.abiMethod.id ∧ e.2.abiSig = e.2.abiMethod.sig := by
  intro pcABI ms t h e he
  obtain ⟨hb, -⟩ := buildIdsToMethods_ok_elim h
  exact buildLoop_invariant
    (fun e => e.1 = e.2.abiMethod.id ∧ e.2.abiSig = e.2.abiMethod.sig) pcABI
    (fun nm am fn _ => ⟨rfl, rfl⟩) ms [] t hb (fun e' he' => absurd he' (List.not_mem_nil e'))
    e he

/-- An ABI descriptor fid() for the fidelity witness. -/
def fidAbi : AbiMethod := ⟨"fid", [3, 1, 4, 1], "fid()"⟩

/-- Implementation method Fid for the fidelity witness. -/
def fidImpl : ImplMethod := ⟨"Fid", [sliceOfAny, errorType], 11⟩

/-- Witness for C3 at a concrete successful build. -/
theorem table_selector_fidelity_witness :
    ([3, 1, 4, 1], NewMethod fidAbi "fid()" 11).1 =
      ([3, 1, 4, 1], NewMethod fidAbi "fid()" 11).2.abiMethod.id ∧
    ([3, 1, 4, 1], NewMethod fidAbi "fid()" 11).2.abiSig =
      ([3, 1, 4, 1], NewMethod fidAbi "fid()" 11).2.abiMethod.sig :=
  table_selector_fidelity [("fid", fidAbi)] [fidImpl]
    [([3, 1, 4, 1], NewMethod fidAbi "fid()" 11)] (by decide)
    ([3, 1, 4, 1], NewMethod fidAbi "fid()" 11) (by decide)

/-! ## ABI map lookup lemmas -/

/-- A successful ABI lookup comes from an entry of the map. -/
theorem lookupAbi_some_mem : ∀ {pcABI : List (String × AbiMethod)} {k : String}
    {am : AbiMethod}, lookupAbi pcABI k = some am → (k, am) ∈ pcABI := by
  intro pcABI
  induction pcABI with
  | nil => intro k am h; exact Option.noConfusion h
  | cons hd tl ih =>
    intro k am h
    obtain ⟨k', m⟩ := hd
    simp only [lookupAbi] at h
    by_cases hk : k' = k
    · rw [if_pos hk] at h
      injection h with h'
      subst hk
      subst h'
      exact List.mem_cons_self _ _
    · rw [if_neg hk] at h
      exact List.mem_cons_of_mem _ (ih h)

/-- With pairwise-distinct keys, lookup finds exactly the entry the key
belongs to. -/
theorem lookupAbi_eq_of_mem : ∀ {pcABI : List (String × AbiMethod)} {k : String}
    {am : AbiMethod}, (pcABI.map Prod.fst).Nodup → (k, am) ∈ pcABI →
    lookupAbi pcABI k = some am := by
  intro pcABI
  induction pcABI with
  | nil => intro k am _ hm; cases hm
  | cons hd tl ih =>
    intro k am hnd hm
    obtain ⟨k', m⟩ := hd
    simp only [List.map_cons, List.nodup_cons] at hnd
    obtain ⟨hk', hnd'⟩ := hnd
    rcases List.mem_cons.mp hm with h | h
    · injection h with h1 h2
      subst h1
      subst h2
      simp [lookupAbi]
    · have hne : k' ≠ k := by
        intro he
        subst he
        exact hk' (List.mem_map_of_mem Prod.fst h)
      simp only [lookupAbi, if_neg hne]
      exact ih hnd' h

/-! ## C6: isolation of non-ABI methods -/

/-- Implementation methods whose normalized name is not an ABI key are
skipped: the loop computes the same result on the name-matched
sublist. -/
theorem buildLoop_filter (pcABI : List (String × AbiMethod)) :
    ∀ ms t, buildLoop pcABI ms t =
      buildLoop pcABI
        (ms.filter fun f => (lookupAbi pcABI (formatName f.name)).isSome) t := by
  intro ms
  induction ms with
  | nil => intro t; rfl
  | cons f rest ih =>
    intro t
    cases hl : lookupAbi pcABI (formatName f.name) with
    | none =>
      rw [List.filter_cons_of_neg (by simp [hl])]
      simp only [buildLoop, hl]
      exact ih t
    | some am =>
      rw [List.filter_cons_of_pos (by simp [hl])]
      simp only [buildLoop, hl]
      cases hv : validateReturnTypes f with
      | panicked => rfl
      | err msg => rfl
      | ok => exact ih _

/-- C6: an implementation method whose normalized name is absent from
the ABI descriptor set is silently skipped — `buildIdsToMethods` equals
its own run on the name-matched sublist, so helper methods can never
cause a failure or contribute an entry — and every record of a built
table carries an ABI descriptor from the set, keyed by that
descriptor's selector, so no selector reaches a helper method. -/
theorem nonABI_methods_isolated :
    (∀ pcABI ms, buildIdsToMethods pcABI ms =
      buildIdsToMethods pcABI
        (ms.filter fun f => (lookupAbi pcABI (formatName f.name)).isSome)) ∧
    (∀ pcABI ms t, buildIdsToMethods pcABI ms = BuildResult.ok t →
      ∀ e ∈ t, e.2.abiMethod ∈ pcABI.map Prod.snd ∧ e.1 = e.2.abiMethod.id) := by
  constructor
  · intro pcABI ms
    simp only [buildIdsToMethods]
    rw [← buildLoop_filter]
  · intro pcABI ms t h e he
    obtain ⟨hb, -⟩ := buildIdsToMethods_ok_elim h
    refine buildLoop_invariant
      (fun e => e.2.abiMethod ∈ pcABI.map Prod.snd ∧ e.1 = e.2.abiMethod.id) pcABI
      ?_ ms [] t hb (fun e' he' => absurd he' (List.not_mem_nil e')) e he
    intro nm am fn hl
    exact ⟨List.mem_map_of_mem Prod.snd (lookupAbi_some_mem hl), rfl⟩

/-- An ABI descriptor iso() for the isolation witness. -/
def isoAbi : AbiMethod := ⟨"iso", [5, 5, 5, 5], "iso()"⟩

/-- Implementation method Iso matching the ABI. -/
def isoImpl : ImplMethod := ⟨"Iso", [sliceOfAny, errorType], 21⟩

/-- A helper method absent from the ABI (and with a non-conforming
return shape, which must not matter since it is skipped). -/
def isoHelper : ImplMethod := ⟨"HelperSortAddrs", [GoType.basic "bool"], 22⟩

/-- Witness for C6: the helper does not block the build and the single
record belongs to the ABI. -/
theorem nonABI_methods_isolated_witness :
    (NewMethod isoAbi "iso()" 21).abiMethod ∈ [("iso", isoAbi)].map Prod.snd ∧
    ([5, 5, 5, 5], NewMethod isoAbi "iso()" 21).1 =
      ([5, 5, 5, 5], NewMethod isoAbi "iso()" 21).2.abiMethod.id :=
  nonABI_methods_isolated.2 [("iso", isoAbi)] [isoImpl, isoHelper]
    [([5, 5, 5, 5], NewMethod isoAbi "iso()" 21)] (by decide)
    ([5, 5, 5, 5], NewMethod isoAbi "iso()" 21) (by decide)

/-! ## Loop lemmas for the completeness claim -/

/-- Insertion binds the inserted key to the inserted record. -/
theorem lookupTable_mapInsert_self (k : List Nat) (v : Method) :
    ∀ t, lookupTable (mapInsert k v t) k = some v := by
  intro t
  induction t with
  | nil => simp [mapInsert, lookupTable]
  | cons hd tl ih =>
    obtain ⟨k', v'⟩ := hd
    simp only [mapInsert]
    by_cases hk : k' = k
    · rw [if_pos hk]
      simp [lookupTable]
    · rw [if_neg hk]
      simp only [lookupTable, if_neg hk]
      exact ih

/-- Insertion leaves every other key's binding unchanged. -/
theorem lookupTable_mapInsert_ne {k k' : List Nat} (v : Method) (hne : k ≠ k') :
    ∀ t, lookupTable (mapInsert k v t) k' = lookupTable t k' := by
  intro t
  induction t with
  | nil => simp [mapInsert, lookupTable, hne]
  | cons hd tl ih =>
    obtain ⟨k₀, v₀⟩ := hd
    simp only [mapInsert]
    by_cases hk : k₀ = k
    · rw [if_pos hk]
      subst hk
      simp [lookupTable, hne]
    · rw [if_neg hk]
      by_cases h0 : k₀ = k'
      · simp [lookupTable, h0]
      · simp only [lookupTable, if_neg h0]
        exact ih

/-- When every name-matched implementation method passes return-shape
validation, the matching loop cannot fail or panic. -/
theorem buildLoop_ok_of_valid (pcABI : List (String × AbiMethod)) :
    ∀ ms : List ImplMethod,
      (∀ f ∈ ms, (lookupAbi pcABI (formatName f.name)).isSome = true →
        validateReturnTypes f = ValidationOutcome.ok) →
      ∀ t, ∃ t', buildLoop pcABI ms t = BuildResult.ok t' := by
  intro ms
  induction ms with
  | nil => intro _ t; exact ⟨t, rfl⟩
  | cons f rest ih =>
    intro hv t
    have hv' : ∀ g ∈ rest, (lookupAbi pcABI (formatName g.name)).isSome = true →
        validateReturnTypes g = ValidationOutcome.ok :=
      fun g hg => hv g (List.mem_cons_of_mem _ hg)
    cases hl : lookupAbi pcABI (formatName f.name) with
    | none =>
      obtain ⟨t', ht'⟩ := ih hv' t
      exact ⟨t', by simp only [buildLoop, hl]; exact ht'⟩
    | some am =>
      have hok : validateReturnTypes f = ValidationOutcome.ok :=
        hv f (List.mem_cons_self _ _) (by simp [hl])
      obtain ⟨t', ht'⟩ := ih hv' (mapInsert am.id (NewMethod am am.sig f.fn) t)
      exact ⟨t', by simp only [buildLoop, hl, hok]; exact ht'⟩

/-- A key bound before the loop stays bound after it. -/
theorem buildLoop_mono (pcABI : List (String × AbiMethod)) :
    ∀ (ms : List ImplMethod) (t t' : IdsToMethods) (k : List Nat),
      buildLoop pcABI ms t = BuildResult.ok t' →
      (lookupTable t k).isSome = true → (lookupTable t' k).isSome = true := by
  intro ms
  induction ms with
  | nil =>
    intro t t' k h hk
    simp only [buildLoop, BuildResult.ok.injEq] at h
    subst h
    exact hk
  | cons f rest ih =>
    intro t t' k h hk
    simp only [buildLoop] at h
    cases hl : lookupAbi pcABI (formatName f.name) with
    | none => rw [hl] at h; exact ih t t' k h hk
    | some am =>
      rw [hl] at h
      cases hv : validateReturnTypes f with
      | panicked => rw [hv] at h; exact BuildResult.noConfusion h
      | err msg => rw [hv] at h; exact BuildResult.noConfusion h
      | ok =>
        rw [hv] at h
        refine ih _ t' k h ?_
        by_cases hkk : am.id = k
        · subst hkk
          rw [lookupTable_mapInsert_self]
          rfl
        · rw [lookupTable_mapInsert_ne _ hkk]
          exact hk

/-- An implementation method whose normalized name matches an ABI entry
leaves that entry's selector bound in any table the loop returns. -/
theorem buildLoop_mem_match (pcABI : List (String × AbiMethod)) :
    ∀ (ms : List ImplMethod) (t t' : IdsToMethods) (f : ImplMethod) (am : AbiMethod),
      f ∈ ms → lookupAbi pcABI (formatName f.name) = some am →
      buildLoop pcABI ms t = BuildResult.ok t' →
      (lookupTable t' am.id).isSome = true := by
  intro ms
  induction ms with
  | nil => intro t t' f am hf; cases hf
  | cons g rest ih =>
    intro t t' f am hf hl h
    simp only [buildLoop] at h
    rcases List.mem_cons.mp hf with rfl | hf'
    · rw [hl] at h
      cases hv : validateReturnTypes f with
      | panicked => rw [hv] at h; exact BuildResult.noConfusion h
      | err msg => rw [hv] at h; exact BuildResult.noConfusion h
      | ok =>
        rw [hv] at h
        refine buildLoop_mono pcABI rest _ t' am.id h ?_
        rw [lookupTable_mapInsert_self]
        rfl
    · cases hg : lookupAbi pcABI (formatName g.name) with
      | none => rw [hg] at h; exact ih t t' f am hf' hl h
      | some am' =>
        rw [hg] at h
        cases hv : validateReturnTypes g with
        | panicked => rw [hv] at h; exact BuildResult.noConfusion h
        | err msg => rw [hv] at h; exact BuildResult.noConfusion h
        | ok => rw [hv] at h; exact ih _ t' f am hf' hl h

/-- Every error the matching loop returns is a return-shape validation
error wrapped with a normalized method name. -/
theorem buildLoop_fail_validation (pcABI : List (String × AbiMethod)) :
    ∀ (ms : List ImplMethod) (t : IdsToMethods) (e : Err),
      buildLoop pcABI ms t = BuildResult.fail e →
      ∃ nm msg, e = Err.wrap nm (Err.validation msg) := by
  intro ms
  induction ms with
  | nil => intro t e h; exact BuildResult.noConfusion h
  | cons f rest ih =>
    intro t e h
    simp only [buildLoop] at h
    cases hl : lookupAbi pcABI (formatName f.name) with
    | none => rw [hl] at h; exact ih t e h
    | some am =>
      rw [hl] at h
      cases hv : validateReturnTypes f with
      | panicked => rw [hv] at h; exact BuildResult.noConfusion h
      | err msg =>
        rw [hv] at h
        injection h with h'
        exact ⟨formatName f.name, msg, h'.symm⟩
      | ok => rw [hv] at h; exact ih _ e h

/-- A key newly bound by the loop comes from a name-matched
implementation method's ABI descriptor. -/
theorem buildLoop_new_keys (pcABI : List (String × AbiMethod)) :
    ∀ (ms : List ImplMethod) (t t' : IdsToMethods) (i : List Nat),
      buildLoop pcABI ms t = BuildResult.ok t' →
      (lookupTable t' i).isSome = true → lookupTable t i = none →
      ∃ f ∈ ms, ∃ am, lookupAbi pcABI (formatName f.name) = some am ∧ am.id = i := by
  intro ms
  induction ms with
  | nil =>
    intro t t' i h hi ht
    simp only [buildLoop, BuildResult.ok.injEq] at h
    subst h
    rw [ht] at hi
    exact Bool.noConfusion hi
  | cons f rest ih =>
    intro t t' i h hi ht
    simp only [buildLoop] at h
    cases hl : lookupAbi pcABI (formatName f.name) with
    | none =>
      rw [hl] at h
      obtain ⟨g, hg, am, ham⟩ := ih t t' i h hi ht
      exact ⟨g, List.mem_cons_of_mem _ hg, am, ham⟩
    | some am =>
      rw [hl] at h
      cases hv : validateReturnTypes f with
      | panicked => rw [hv] at h; exact BuildResult.noConfusion h
      | err msg => rw [hv] at h; exact BuildResult.noConfusion h
      | ok =>
        rw [hv] at h
        by_cases hik : am.id = i
        · exact ⟨f, List.mem_cons_self _ _, am, hl, hik⟩
        · have ht2 : lookupTable (mapInsert am.id (NewMethod am am.sig f.fn) t) i = none := by
            rw [lookupTable_mapInsert_ne _ hik]
            exact ht
          obtain ⟨g, hg, am', ham'⟩ := ih _ t' i h hi ht2
          exact ⟨g, List.mem_cons_of_mem _ hg, am', ham'⟩

/-- The completeness pass succeeds exactly when every ABI method's
selector is bound in the table. -/
theorem findMissing_none_iff (t : IdsToMethods) :
    ∀ pcABI : List (String × AbiMethod),
      findMissing t pcABI = none ↔
        ∀ nm am, (nm, am) ∈ pcABI → (lookupTable t am.id).isSome = true := by
  intro pcABI
  induction pcABI with
  | nil =>
    constructor
    · intro _ nm am hm; cases hm
    · intro _; rfl
  | cons hd tl ih =>
    obtain ⟨nm₀, am₀⟩ := hd
    cases hx : lookupTable t am₀.id with
    | none =>
      simp only [findMissing, hx]
      constructor
      · intro h; exact Option.noConfusion h
      · intro h
        have h2 := h nm₀ am₀ (List.mem_cons_self _ _)
        rw [hx] at h2
        exact Bool.noConfusion h2
    | some m =>
      simp only [findMissing, hx]
      rw [ih]
      constructor
      · intro h nm am hm
        rcases List.mem_cons.mp hm with heq | hm'
        · injection heq with h1 h2
          subst h2
          rw [hx]
          rfl
        · exact h nm am hm'
      · intro h nm am hm
        exact h nm am (List.mem_cons_of_mem _ hm)

/-- A method reported missing is an ABI entry whose selector is unbound. -/
theorem findMissing_some (t : IdsToMethods) :
    ∀ (pcABI : List (String × AbiMethod)) (am : AbiMethod),
      findMissing t pcABI = some am →
      (∃ nm, (nm, am) ∈ pcABI) ∧ lookupTable t am.id = none := by
  intro pcABI
  induction pcABI with
  | nil => intro am h; exact Option.noConfusion h
  | cons hd tl ih =>
    intro am h
    obtain ⟨nm₀, am₀⟩ := hd
    cases hx : lookupTable t am₀.id with
    | none =>
      simp only [findMissing, hx] at h
      injection h with h'
      subst h'
      exact ⟨⟨nm₀, List.mem_cons_self _ _⟩, hx⟩
    | some m =>
      simp only [findMissing, hx] at h
      obtain ⟨⟨nm, hm⟩, hl⟩ := ih am h
      exact ⟨⟨nm, List.mem_cons_of_mem _ hm⟩, hl⟩

/-! ## C1: completeness of the dispatch table -/

/-- C1 (amended): for a well-formed ABI descriptor map (distinct keys,
distinct selectors, each key equal to its descriptor's name) and an
implementation whose name-matched methods all pass return-shape
validation: a successful build binds every ABI method's selector;
the build fails with the "no implementation for ABI method" error iff
some ABI method has no implementation method of matching normalized
name, and the error then names such a missing method; and
`StatefulFactory.Build` propagates any `buildIdsToMethods` failure
unchanged.  (Without the validation proviso the iff fails: a
name-matched method with a bad return shape makes the build fail with
the validation error even when an ABI method is also unimplemented.) -/
theorem buildIdsToMethods_completeness
    (pcABI : List (String × AbiMethod)) (ms : List ImplMethod)
    (hkeys : (pcABI.map Prod.fst).Nodup)
    (hids : (pcABI.map fun e => e.2.id).Nodup)
    (hname : ∀ e ∈ pcABI, e.1 = e.2.name)
    (hvalid : ∀ f ∈ ms, (lookupAbi pcABI (formatName f.name)).isSome = true →
      validateReturnTypes f = ValidationOutcome.ok) :
    (∀ t, buildIdsToMethods pcABI ms = BuildResult.ok t →
      ∀ nm am, (nm, am) ∈ pcABI → (lookupTable t am.id).isSome = true) ∧
    ((∃ n, buildIdsToMethods pcABI ms =
        BuildResult.fail (Err.wrap n Err.errNoPrecompileMethodForABIMethod)) ↔
      ∃ nm am, (nm, am) ∈ pcABI ∧ ∀ f ∈ ms, formatName f.name ≠ am.name) ∧
    (∀ n, buildIdsToMethods pcABI ms =
        BuildResult.fail (Err.wrap n Err.errNoPrecompileMethodForABIMethod) →
      ∃ nm am, (nm, am) ∈ pcABI ∧ am.name = n ∧
        ∀ f ∈ ms, formatName f.name ≠ am.name) ∧
    (∀ (rp : Registrable) (p : Plugin) e', rp.isStatefulImpl = true →
      buildIdsToMethods rp.abiMethods rp.implMethods = BuildResult.fail e' →
      (StatefulFactory.Build rp p).2 = BuildResult.fail e') := by
  have part1 : ∀ t, buildIdsToMethods pcABI ms = BuildResult.ok t →
      ∀ nm am, (nm, am) ∈ pcABI → (lookupTable t am.id).isSome = true := by
    intro t h nm am hm
    obtain ⟨-, hfm⟩ := buildIdsToMethods_ok_elim h
    exact (findMissing_none_iff t pcABI).mp hfm nm am hm
  have part3 : ∀ n, buildIdsToMethods pcABI ms =
      BuildResult.fail (Err.wrap n Err.errNoPrecompileMethodForABIMethod) →
      ∃ nm am, (nm, am) ∈ pcABI ∧ am.name = n ∧
        ∀ f ∈ ms, formatName f.name ≠ am.name := by
    intro n h
    simp only [buildIdsToMethods] at h
    cases hb : buildLoop pcABI ms [] with
    | ok t₀ =>
      rw [hb] at h
      dsimp only at h
      cases hm : findMissing t₀ pcABI with
      | none => rw [hm] at h; exact BuildResult.noConfusion h
      | some am =>
        rw [hm] at h
        injection h with h'
        injection h' with hn hinner
        obtain ⟨⟨nm, hmem⟩, hnone⟩ := findMissing_some t₀ pcABI am hm
        refine ⟨nm, am, hmem, hn, ?_⟩
        intro f hf hfn
        have hk : nm = am.name := hname (nm, am) hmem
        have hla : lookupAbi pcABI (formatName f.name) = some am := by
          rw [hfn, ← hk]
          exact lookupAbi_eq_of_mem hkeys hmem
        have hsome := buildLoop_mem_match pcABI ms [] t₀ f am hf hla hb
        rw [hnone] at hsome
        exact Bool.noConfusion hsome
    | fail e =>
      rw [hb] at h
      injection h with h'
      obtain ⟨nm, msg, he⟩ := buildLoop_fail_validation pcABI ms [] e hb
      subst he
      injection h' with h1 h2
      exact Err.noConfusion h2
    | panicked => rw [hb] at h; exact BuildResult.noConfusion h
  have part2bwd : (∃ nm am, (nm, am) ∈ pcABI ∧ ∀ f ∈ ms, formatName f.name ≠ am.name) →
      ∃ n, buildIdsToMethods pcABI ms =
        BuildResult.fail (Err.wrap n Err.errNoPrecompileMethodForABIMethod) := by
    rintro ⟨nm, am, hmem, hno⟩
    obtain ⟨t₀, hb⟩ := buildLoop_ok_of_valid pcABI ms hvalid []
    have hnone : lookupTable t₀ am.id = none := by
      cases hx : lookupTable t₀ am.id with
      | none => rfl
      | some m =>
        obtain ⟨f, hf, am', hla', hid'⟩ :=
          buildLoop_new_keys pcABI ms [] t₀ am.id hb (by rw [hx]; rfl) rfl
        have hmem' : (formatName f.name, am') ∈ pcABI := lookupAbi_some_mem hla'
        have heq : (formatName f.name, am') = (nm, am) :=
          List.inj_on_of_nodup_map hids hmem' hmem hid'
        injection heq with he1 he2
        have hfn : formatName f.name = am.name := by
          rw [he1]
          exact hname (nm, am) hmem
        exact absurd hfn (hno f hf)
    cases hm : findMissing t₀ pcABI with
    | none =>
      have h2 := (findMissing_none_iff t₀ pcABI).mp hm nm am hmem
      rw [hnone] at h2
      exact Bool.noConfusion h2
    | some am' =>
      exact ⟨am'.name, by simp [buildIdsToMethods, hb, hm]⟩
  refine ⟨part1, ⟨?_, part2bwd⟩, part3, ?_⟩
  · rintro ⟨n, h⟩
    obtain ⟨nm, am, hmem, -, hno⟩ := part3 n h
    exact ⟨nm, am, hmem, hno⟩
  · intro rp p e' hs hfail
    simp [StatefulFactory.Build, hs, Registrable.withPlugin, hfail]

/-- ABI descriptor foo() of the completeness counterexample. -/
def cexAbiFoo : AbiMethod := ⟨"foo", [1, 1, 1, 1], "foo()"⟩

/-- ABI descriptor bar() of the completeness counterexample, with no
implementation. -/
def cexAbiBar : AbiMethod := ⟨"bar", [2, 2, 2, 2], "bar()"⟩

/-- Implementation method Foo with zero return values: name-matched but
failing return-shape validation. -/
def cexImplFoo : ImplMethod := ⟨"Foo", [], 41⟩

/-- The two-method ABI of the counterexample. -/
def cexABI : List (String × AbiMethod) := [("foo", cexAbiFoo), ("bar", cexAbiBar)]

/-- Counterexample to C1 as stated: bar() has no implementation method
of matching normalized name, yet the build does not fail with the
"no implementation for ABI method" error for either ABI method — it
fails first with Foo's return-shape validation error. -/
theorem buildIdsToMethods_completeness_cex :
    buildIdsToMethods cexABI [cexImplFoo] =
      BuildResult.fail (Err.wrap "foo" (Err.validation
        "precompile methods must return ([]any, error), but found wrong number of return types for precompile method")) ∧
    buildIdsToMethods cexABI [cexImplFoo] ≠
      BuildResult.fail (Err.wrap "bar" Err.errNoPrecompileMethodForABIMethod) ∧
    buildIdsToMethods cexABI [cexImplFoo] ≠
      BuildResult.fail (Err.wrap "foo" Err.errNoPrecompileMethodForABIMethod) ∧
    ("bar", cexAbiBar) ∈ cexABI ∧
    formatName cexImplFoo.name ≠ cexAbiBar.name := by decide

/-- Implementation method Foo with the conforming return shape. -/
def wImplFoo : ImplMethod := ⟨"Foo", [sliceOfAny, errorType], 31⟩

/-- Witness for C1 (amended) at a concrete one-method ABI: the built
table binds the ABI method's selector. -/
theorem buildIdsToMethods_completeness_witness :
    (lookupTable [([1, 2, 3, 4], NewMethod fooAbi "foo()" 31)] fooAbi.id).isSome = true :=
  (buildIdsToMethods_completeness [("foo", fooAbi)] [wImplFoo] (by decide) (by decide)
    (by decide) (by decide)).1 [([1, 2, 3, 4], NewMethod fooAbi "foo()" 31)] (by decide)
    "foo" fooAbi (by decide)

end Polaris
